import Mathlib

/-!
Shallow embedding of the ban-registry subsystem (`src/banman.cpp`).

The subnet value type and its containment predicate `IsSuperset` are external
collaborators of the core, so they are abstracted: subnets are an arbitrary
type `α` with decidable equality, and containment is an arbitrary function
`isS : α → α → Bool` where `isS a b = true` reads "`a` is a superset of `b`".
The `std::map<CSubNet, CBanEntry>` is embedded as an association list with
exact-key insert/erase, matching the map's exact-match identity semantics.
Wall-clock time is passed explicitly as an `Int` parameter `now` (seconds).
The ban store adapter's `Write` result is passed as a `writeOk : Bool`
parameter, and the UI notification sink plus store writes are recorded in an
event trace so that ordering claims can be stated.
-/

/-- Embedding of `CBanEntry`: creation time and absolute expiry. -/
structure CBanEntry where
  nCreateTime : Int
  nBanUntil : Int
deriving DecidableEq, Repr

/-- Embedding of `banmap_t`: an exact-key map from subnets to ban entries. -/
abbrev banmap (α : Type) := List (α × CBanEntry)

/-- The BanMan state protected by `m_cs_banned`: the banned map and the dirty flag. -/
structure BanManState (α : Type) where
  m_banned : banmap α
  m_is_dirty : Bool
deriving DecidableEq, Repr

/-- Observable side effects of an operation: a `BannedListChanged` UI
notification, or a write of a snapshot to the ban store (with its result). -/
inductive BanEvent (α : Type) where
  | notifyUI : BanEvent α
  | storeWrite : banmap α → Bool → BanEvent α
deriving DecidableEq, Repr

variable {α : Type} [DecidableEq α]

/-- Exact-key erase, as `m_banned.erase(sub_net)` on the `std::map`. -/
def eraseKey (m : banmap α) (k : α) : banmap α :=
  m.filter (fun p => decide (p.1 ≠ k))

/-- Exact-key insert-or-assign, as `m_banned[sub_net] = new_ban_entry`. -/
def insertKey : banmap α → α → CBanEntry → banmap α
  | [], k, v => [(k, v)]
  | (k', v') :: rest, k, v =>
    if k' = k then (k, v) :: rest else (k', v') :: insertKey rest k v

/-- Exact-key membership test, as `m_banned.erase(...) == 0` asks. -/
def containsKey (m : banmap α) (k : α) : Bool :=
  m.any (fun p => decide (p.1 = k))

/-- Exact-key lookup. -/
def lookupKey : banmap α → α → Option CBanEntry
  | [], _ => none
  | (k', v) :: rest, k => if k' = k then some v else lookupKey rest k

/-- The per-entry test of `BanMan::HasBannedAddresses`: the stored subnet is a
superset or a subset of the queried one, and the entry is unexpired. -/
def bannedHit (isS : α → α → Bool) (now : Int) (sub_net : α) (p : α × CBanEntry) : Bool :=
  (isS p.1 sub_net || isS sub_net p.1) && decide (now < p.2.nBanUntil)

/-- `BanMan::HasBannedAddresses`: scans the map for any matching unexpired entry. -/
def HasBannedAddresses (isS : α → α → Bool) (st : BanManState α) (now : Int) (sub_net : α) : Bool :=
  st.m_banned.any (bannedHit isS now sub_net)

/-- The loop body of `BanMan::SweepBanned`: drops every entry with
`now > nBanUntil`; the second component records whether anything was removed. -/
def sweepList (now : Int) : banmap α → banmap α × Bool
  | [] => ([], false)
  | (b, e) :: rest =>
    let r := sweepList now rest
    if now > e.nBanUntil then (r.1, true) else ((b, e) :: r.1, r.2)

/-- `BanMan::SweepBanned`: removes expired entries, sets the dirty flag on any
removal, and notifies the UI when something was removed. -/
def SweepBanned (st : BanManState α) (now : Int) : BanManState α × List (BanEvent α) :=
  let r := sweepList now st.m_banned
  (⟨r.1, st.m_is_dirty || r.2⟩, if r.2 then [BanEvent.notifyUI] else [])

/-- `BanMan::GetBanned`: sweeps, then returns a snapshot of the map. -/
def GetBanned (st : BanManState α) (now : Int) : banmap α × BanManState α × List (BanEvent α) :=
  let r := SweepBanned st now
  (r.1.m_banned, r.1, r.2)

/-- `BanMan::SetBanned`: replaces the whole map and marks the state dirty. -/
def SetBanned (st : BanManState α) (m : banmap α) : BanManState α :=
  ⟨m, true⟩

/-- `BanMan::DumpBanlist`: sweep; if not dirty, stop; otherwise take a swept
snapshot (`GetBanned` sweeps once more), write it to the store, and clear the
dirty flag only when the write succeeded. -/
def DumpBanlist (st : BanManState α) (now : Int) (writeOk : Bool) : BanManState α × List (BanEvent α) :=
  let r1 := SweepBanned st now
  if r1.1.m_is_dirty then
    let r2 := SweepBanned r1.1 now
    let snapshot := r2.1.m_banned
    (⟨snapshot, if writeOk then false else r2.1.m_is_dirty⟩,
      r1.2 ++ r2.2 ++ [BanEvent.storeWrite snapshot writeOk])
  else (r1.1, r1.2)

/-- The registry part of `BanMan::ClearBanned` (the block under the lock):
empty the map and unconditionally mark dirty. -/
def ClearRegistry (st : BanManState α) : BanManState α :=
  ⟨[], true⟩

/-- `BanMan::ClearBanned` in full: empty the map, mark dirty, flush, then notify. -/
def ClearBanned (st : BanManState α) (now : Int) (writeOk : Bool) : BanManState α × List (BanEvent α) :=
  let st1 := ClearRegistry st
  let r := DumpBanlist st1 now writeOk
  (r.1, r.2 ++ [BanEvent.notifyUI])

/-- The `nBanUntil` computation of `BanMan::Ban` (lines 107-113): a
non-positive offset is replaced by the default ban time and forces
relative-to-now semantics. -/
def banUntilOf (now offset : Int) (sinceEpoch : Bool) (defaultBanTime : Int) : Int :=
  let normalizedOffset := if offset ≤ 0 then defaultBanTime else offset
  let normalizedEpoch := if offset ≤ 0 then false else sinceEpoch
  (if normalizedEpoch then 0 else now) + normalizedOffset

/-- The consolidation scan of `BanMan::Ban`: walking the map in order, an
entry strictly covered by the new ban (new subnet is a superset, new expiry
strictly later) is marked for deletion; an entry covering the new ban (stored
subnet is a superset, stored expiry at least the new one) aborts the whole
insert (`none`). Returns the collected keys to delete otherwise. -/
def banScan (isS : α → α → Bool) (sub_net : α) (newUntil : Int) : banmap α → Option (List α)
  | [] => some []
  | (b, e) :: rest =>
    if isS sub_net b && decide (newUntil > e.nBanUntil) then
      (banScan isS sub_net newUntil rest).map (fun l => b :: l)
    else if isS b sub_net && decide (newUntil ≤ e.nBanUntil) then
      none
    else
      banScan isS sub_net newUntil rest

/-- The registry part of `BanMan::Ban` (lines 103-137 and the returned Bool):
compute the candidate entry, run the consolidation scan; on rejection return
`false` with the state untouched, otherwise delete the marked entries, store
the new entry under the exact new key, and mark dirty. -/
def BanInsert (isS : α → α → Bool) (defaultBanTime : Int) (st : BanManState α) (now : Int)
    (sub_net : α) (offset : Int) (sinceEpoch : Bool) : Bool × BanManState α :=
  let u := banUntilOf now offset sinceEpoch defaultBanTime
  match banScan isS sub_net u st.m_banned with
  | none => (false, st)
  | some toDelete =>
    (true, ⟨insertKey (toDelete.foldl eraseKey st.m_banned) sub_net ⟨now, u⟩, true⟩)

/-- `BanMan::Ban` in full: the registry insert, then on success notify the UI
and flush to disk immediately; on rejection nothing else happens. -/
def Ban (isS : α → α → Bool) (defaultBanTime : Int) (st : BanManState α) (now : Int)
    (sub_net : α) (offset : Int) (sinceEpoch : Bool) (writeOk : Bool) :
    Bool × BanManState α × List (BanEvent α) :=
  let r := BanInsert isS defaultBanTime st now sub_net offset sinceEpoch
  if r.1 then
    let d := DumpBanlist r.2 now writeOk
    (true, d.1, BanEvent.notifyUI :: d.2)
  else (false, r.2, [])

/-- `BanMan::Unban`: exact-key erase; on a hit mark dirty, notify, flush. -/
def Unban (st : BanManState α) (now : Int) (sub_net : α) (writeOk : Bool) :
    Bool × BanManState α × List (BanEvent α) :=
  if containsKey st.m_banned sub_net then
    let st1 : BanManState α := ⟨eraseKey st.m_banned sub_net, true⟩
    let d := DumpBanlist st1 now writeOk
    (true, d.1, BanEvent.notifyUI :: d.2)
  else (false, st, [])

/-- A concrete containment function on `Nat` used to instantiate the abstract
subnet type in concrete evaluations: read `natSup a b` as "prefix length `a`
covers prefix length `b` of a fixed nested chain of subnets", so a smaller
value is a superset of every larger one. -/
def natSup (a b : Nat) : Bool :=
  decide (a ≤ b)

/-! ### Lemmas about the map primitives -/

theorem mem_eraseKey {m : banmap α} {k : α} {p : α × CBanEntry} :
    p ∈ eraseKey m k ↔ p ∈ m ∧ p.1 ≠ k := by
  simp [eraseKey, List.mem_filter]

theorem mem_foldl_eraseKey {l : List α} {m : banmap α} {p : α × CBanEntry} :
    p ∈ l.foldl eraseKey m ↔ p ∈ m ∧ p.1 ∉ l := by
  induction l generalizing m with
  | nil => simp
  | cons k l ih =>
    simp only [List.foldl_cons, ih, mem_eraseKey, List.mem_cons]
    tauto

theorem mem_insertKey_self (m : banmap α) (k : α) (v : CBanEntry) :
    (k, v) ∈ insertKey m k v := by
  induction m with
  | nil => simp [insertKey]
  | cons p rest ih =>
    obtain ⟨a, b⟩ := p
    by_cases h : a = k <;> simp [insertKey, h, ih]

theorem mem_insertKey_ne {m : banmap α} {k k' : α} {v v' : CBanEntry} (h : k' ≠ k) :
    (k', v') ∈ insertKey m k v ↔ (k', v') ∈ m := by
  induction m with
  | nil => simp [insertKey, Prod.ext_iff, h]
  | cons p rest ih =>
    obtain ⟨a, b⟩ := p
    by_cases hak : a = k
    · subst hak
      simp [insertKey, Prod.ext_iff, h]
    · simp [insertKey, hak, Prod.ext_iff, ih]

/-! ### Lemmas about the sweep loop -/

theorem mem_sweepList {now : Int} {m : banmap α} {p : α × CBanEntry} :
    p ∈ (sweepList now m).1 ↔ p ∈ m ∧ ¬ now > p.2.nBanUntil := by
  induction m with
  | nil => simp [sweepList]
  | cons q rest ih =>
    obtain ⟨b, e⟩ := q
    by_cases h : now > e.nBanUntil
    · simp only [sweepList, if_pos h, ih, List.mem_cons]
      constructor
      · rintro ⟨hm, hn⟩; exact ⟨Or.inr hm, hn⟩
      · rintro ⟨hm | hm, hn⟩
        · cases hm; exact absurd h hn
        · exact ⟨hm, hn⟩
    · simp only [sweepList, if_neg h, List.mem_cons, ih]
      constructor
      · rintro (rfl | ⟨hm, hn⟩)
        · exact ⟨Or.inl rfl, h⟩
        · exact ⟨Or.inr hm, hn⟩
      · rintro ⟨hm | hm, hn⟩
        · cases hm; exact Or.inl rfl
        · exact Or.inr ⟨hm, hn⟩

theorem sweepList_snd {now : Int} {m : banmap α} :
    (sweepList now m).2 = m.any (fun p => decide (now > p.2.nBanUntil)) := by
  induction m with
  | nil => simp [sweepList]
  | cons q rest ih =>
    obtain ⟨b, e⟩ := q
    by_cases h : now > e.nBanUntil <;> simp [sweepList, h, ih]

theorem sweepList_clean {now : Int} {m : banmap α}
    (h : ∀ p ∈ m, ¬ now > p.2.nBanUntil) : sweepList now m = (m, false) := by
  induction m with
  | nil => simp [sweepList]
  | cons q rest ih =>
    obtain ⟨b, e⟩ := q
    have hq := h (b, e) (List.mem_cons_self _ _)
    have hrest := ih (fun p hp => h p (List.mem_cons_of_mem _ hp))
    simp [sweepList, hq, hrest]

theorem sweepList_idem (now : Int) (m : banmap α) :
    sweepList now (sweepList now m).1 = ((sweepList now m).1, false) :=
  sweepList_clean (fun _ hp => (mem_sweepList.1 hp).2)

/-! ### Lemmas about the consolidation scan -/

theorem banScan_eq_none {isS : α → α → Bool} {B A : α} {u : Int} {m : banmap α}
    {eA : CBanEntry} (hmem : (A, eA) ∈ m) (hsup : isS A B = true)
    (hge : u ≤ eA.nBanUntil) : banScan isS B u m = none := by
  induction m with
  | nil => cases hmem
  | cons q rest ih =>
    obtain ⟨b, e⟩ := q
    rcases List.mem_cons.1 hmem with heq | hmem'
    · obtain ⟨rfl, rfl⟩ := Prod.mk.injEq .. ▸ heq
      have h1 : (isS B A && decide (u > eA.nBanUntil)) = false := by
        simp [not_lt.2 hge]
      have h2 : (isS A B && decide (u ≤ eA.nBanUntil)) = true := by
        simp [hsup, hge]
      simp [banScan, h1, h2]
    · by_cases h1 : (isS B b && decide (u > e.nBanUntil)) = true
      · simp [banScan, h1, ih hmem']
      · by_cases h2 : (isS b B && decide (u ≤ e.nBanUntil)) = true
        · simp [banScan, h1, h2]
        · simp [banScan, h1, h2, ih hmem']

theorem banScan_eq_some {isS : α → α → Bool} {A : α} {u : Int} {m : banmap α}
    (h : ∀ p ∈ m, isS p.1 A = true → p.2.nBanUntil < u) :
    banScan isS A u m =
      some ((m.filter (fun p => isS A p.1 && decide (u > p.2.nBanUntil))).map Prod.fst) := by
  induction m with
  | nil => simp [banScan]
  | cons q rest ih =>
    obtain ⟨b, e⟩ := q
    have hrest := ih (fun p hp => h p (List.mem_cons_of_mem _ hp))
    by_cases h1 : (isS A b && decide (u > e.nBanUntil)) = true
    · simp [banScan, h1, hrest, List.filter_cons]
    · have h2 : (isS b A && decide (u ≤ e.nBanUntil)) = false := by
        cases hba : isS b A
        · simp
        · have := h (b, e) (List.mem_cons_self _ _) hba
          simp [not_le.2 this]
      simp [banScan, h1, h2, hrest, List.filter_cons]

/-! ### Claim theorems -/

/-- C1: if some banned entry `(A, eA)` has `A` a superset of `B` and an expiry
at least the expiry requested for `B`, then `Ban` on `B` returns `false` and
leaves the whole state (banned map and dirty flag) unchanged, with no store
write and no notification — in particular no entry marked for deletion during
the scan is deleted on the rejection path. -/
theorem ban_rejected_superset_unchanged (isS : α → α → Bool) (defaultBanTime : Int)
    (st : BanManState α) (now : Int) (A B : α) (eA : CBanEntry) (offset : Int)
    (sinceEpoch : Bool) (writeOk : Bool)
    (hmem : (A, eA) ∈ st.m_banned) (hsup : isS A B = true)
    (hge : banUntilOf now offset sinceEpoch defaultBanTime ≤ eA.nBanUntil) :
    Ban isS defaultBanTime st now B offset sinceEpoch writeOk = (false, st, []) := by
  have hscan := banScan_eq_none hmem hsup hge
  simp [Ban, BanInsert, hscan]

/-- Witness for C1: a `/16`-style entry (coded `1`) with expiry `100` rejects a
narrower ban (coded `2`) requested until `50`, leaving the state untouched. -/
theorem ban_rejected_superset_unchanged_witness :
    (((1 : Nat), (⟨0, 100⟩ : CBanEntry)) ∈ ([((1 : Nat), ⟨0, 100⟩)] : banmap Nat) ∧
      natSup 1 2 = true ∧
      banUntilOf 0 50 false 500 ≤ (⟨0, 100⟩ : CBanEntry).nBanUntil) ∧
    Ban natSup 500 ⟨[(1, ⟨0, 100⟩)], false⟩ 0 2 50 false true =
      (false, ⟨[(1, ⟨0, 100⟩)], false⟩, []) :=
  ⟨by decide,
   ban_rejected_superset_unchanged natSup 500 ⟨[(1, ⟨0, 100⟩)], false⟩ 0 1 2 ⟨0, 100⟩
     50 false true (by decide) (by decide) (by decide)⟩

/-- C2 counterexample: with `A = 2` a superset of the banned `B = 3` (entry
expiry `10`) and a requested expiry `100 > 10`, the claim predicts the call
returns `true` and deletes `B`; but a third entry `1`, a superset of `A` with
expiry `1000 ≥ 100`, makes the scan reject: the call returns `false` and `B`
stays in the map. -/
theorem ban_supersedes_cex :
    natSup 2 3 = true ∧
    ((3 : Nat), (⟨0, 10⟩ : CBanEntry)) ∈
      ([((3 : Nat), ⟨0, 10⟩), (1, ⟨0, 1000⟩)] : banmap Nat) ∧
    (⟨0, 10⟩ : CBanEntry).nBanUntil < banUntilOf 0 100 false 500 ∧
    (Ban natSup 500 ⟨[(3, ⟨0, 10⟩), (1, ⟨0, 1000⟩)], false⟩ 0 2 100 false true).1 = false ∧
    ((3 : Nat), (⟨0, 10⟩ : CBanEntry)) ∈
      (Ban natSup 500 ⟨[(3, ⟨0, 10⟩), (1, ⟨0, 1000⟩)], false⟩ 0 2 100 false true).2.1.m_banned := by
  decide

/-- C2 amended: assume additionally that no existing entry blocks the insert
(every stored superset of `A` expires strictly before the new expiry — which
the banned `B` itself satisfies by hypothesis whenever it is a superset of
`A`). Then the registry insert on `A` returns `true`, stores the new record
under the exact key `A`, deletes `B` entirely (when `B ≠ A`), and sets the
dirty flag. -/
theorem ban_supersedes (isS : α → α → Bool) (defaultBanTime : Int) (st : BanManState α)
    (now : Int) (A B : α) (eB : CBanEntry) (offset : Int) (sinceEpoch : Bool)
    (hmem : (B, eB) ∈ st.m_banned) (hsup : isS A B = true)
    (hlt : eB.nBanUntil < banUntilOf now offset sinceEpoch defaultBanTime)
    (hnoblock : ∀ p ∈ st.m_banned, isS p.1 A = true →
      p.2.nBanUntil < banUntilOf now offset sinceEpoch defaultBanTime) :
    (BanInsert isS defaultBanTime st now A offset sinceEpoch).1 = true ∧
    (A, (⟨now, banUntilOf now offset sinceEpoch defaultBanTime⟩ : CBanEntry)) ∈
      (BanInsert isS defaultBanTime st now A offset sinceEpoch).2.m_banned ∧
    (B ≠ A → ∀ e, (B, e) ∉ (BanInsert isS defaultBanTime st now A offset sinceEpoch).2.m_banned) ∧
    (BanInsert isS defaultBanTime st now A offset sinceEpoch).2.m_is_dirty = true := by
  have hscan := banScan_eq_some hnoblock
  have hBdel : B ∈ (st.m_banned.filter
      (fun p => isS A p.1 && decide (banUntilOf now offset sinceEpoch defaultBanTime > p.2.nBanUntil))).map Prod.fst := by
    refine List.mem_map.2 ⟨(B, eB), List.mem_filter.2 ⟨hmem, ?_⟩, rfl⟩
    simp [hsup, hlt]
  refine ⟨by simp [BanInsert, hscan], ?_, ?_, ?_⟩
  · simp only [BanInsert, hscan]
    exact mem_insertKey_self _ _ _
  · intro hne e
    simp only [BanInsert, hscan]
    intro hin
    have := (mem_insertKey_ne hne).1 hin
    exact (mem_foldl_eraseKey.1 this).2 hBdel
  · simp [BanInsert, hscan]

/-- Witness for C2: banning the broader subnet (coded `2`) until `100` over the
narrower banned `3` (expiry `10`) succeeds, stores the new entry at key `2`,
removes key `3`, and marks the state dirty. -/
theorem ban_supersedes_witness :
    (((3 : Nat), (⟨0, 10⟩ : CBanEntry)) ∈ ([((3 : Nat), ⟨0, 10⟩)] : banmap Nat) ∧
      natSup 2 3 = true ∧
      (⟨0, 10⟩ : CBanEntry).nBanUntil < banUntilOf 0 100 false 500) ∧
    ((BanInsert natSup 500 ⟨[(3, ⟨0, 10⟩)], false⟩ 0 2 100 false).1 = true ∧
      ((2 : Nat), (⟨0, banUntilOf 0 100 false 500⟩ : CBanEntry)) ∈
        (BanInsert natSup 500 ⟨[(3, ⟨0, 10⟩)], false⟩ 0 2 100 false).2.m_banned ∧
      ((3 : Nat) ≠ 2 → ∀ e, ((3 : Nat), e) ∉
        (BanInsert natSup 500 ⟨[(3, ⟨0, 10⟩)], false⟩ 0 2 100 false).2.m_banned) ∧
      (BanInsert natSup 500 ⟨[(3, ⟨0, 10⟩)], false⟩ 0 2 100 false).2.m_is_dirty = true) :=
  ⟨by decide,
   ban_supersedes natSup 500 ⟨[(3, ⟨0, 10⟩)], false⟩ 0 2 3 ⟨0, 10⟩ 100 false
     (by decide) (by decide) (by decide) (by decide)⟩

/-- C3: whenever the insert commits, the stored record is keyed by the
requested subnet with creation time `now` and an expiry that equals
`now + defaultBanTime` when the requested duration is non-positive (the
caller's since-epoch flag being overridden), and
`(sinceEpoch ? 0 : now) + offset` otherwise. -/
theorem ban_until_computation (isS : α → α → Bool) (defaultBanTime : Int) (st : BanManState α)
    (now : Int) (S : α) (offset : Int) (sinceEpoch : Bool)
    (h : (BanInsert isS defaultBanTime st now S offset sinceEpoch).1 = true) :
    (S, (⟨now, banUntilOf now offset sinceEpoch defaultBanTime⟩ : CBanEntry)) ∈
      (BanInsert isS defaultBanTime st now S offset sinceEpoch).2.m_banned ∧
    banUntilOf now offset sinceEpoch defaultBanTime =
      if offset ≤ 0 then now + defaultBanTime
      else (if sinceEpoch then (0 : Int) else now) + offset := by
  constructor
  · cases hscan : banScan isS S (banUntilOf now offset sinceEpoch defaultBanTime) st.m_banned with
    | none => simp [BanInsert, hscan] at h
    | some toDelete =>
      simp only [BanInsert, hscan]
      exact mem_insertKey_self _ _ _
  · by_cases hoff : offset ≤ 0 <;> simp [banUntilOf, hoff]

/-- Witness for C3: banning with a non-positive duration (`0`) and the
since-epoch flag raised still resolves to `now + defaultBanTime = 3 + 500`. -/
theorem ban_until_computation_witness :
    (BanInsert natSup 500 (⟨[], false⟩ : BanManState Nat) 3 7 0 true).1 = true ∧
    (((7 : Nat), (⟨3, banUntilOf 3 0 true 500⟩ : CBanEntry)) ∈
      (BanInsert natSup 500 (⟨[], false⟩ : BanManState Nat) 3 7 0 true).2.m_banned ∧
      banUntilOf 3 0 true 500 =
        if (0 : Int) ≤ 0 then 3 + 500 else (if true then (0 : Int) else 3) + 0) :=
  ⟨by decide, ban_until_computation natSup 500 ⟨[], false⟩ 3 7 0 true (by decide)⟩

/-- C4: `HasBannedAddresses` returns `true` exactly when some stored entry is
unexpired (`now < nBanUntil`) and its subnet contains or is contained in the
queried subnet. -/
theorem has_banned_overlap_iff (isS : α → α → Bool) (st : BanManState α) (now : Int) (S : α) :
    HasBannedAddresses isS st now S = true ↔
      ∃ p ∈ st.m_banned, (isS p.1 S = true ∨ isS S p.1 = true) ∧ now < p.2.nBanUntil := by
  simp [HasBannedAddresses, bannedHit, List.any_eq_true]

/-- C5: the sweep keeps exactly the entries with `now ≤ nBanUntil` (so entries
with `now > nBanUntil` are all removed and unexpired ones never are), the dirty
flag is set exactly when the old flag was set or some entry was removed, and a
positive `HasBannedAddresses` answer is always witnessed by an unexpired entry,
so an expired entry is already invisible to the overlap query before any sweep. -/
theorem sweep_removes_exactly_expired (isS : α → α → Bool) (st : BanManState α)
    (now : Int) (S : α) :
    (∀ p, p ∈ (SweepBanned st now).1.m_banned ↔ p ∈ st.m_banned ∧ ¬ now > p.2.nBanUntil) ∧
    (SweepBanned st now).1.m_is_dirty =
      (st.m_is_dirty || st.m_banned.any (fun p => decide (now > p.2.nBanUntil))) ∧
    (HasBannedAddresses isS st now S = true → ∃ p ∈ st.m_banned, now < p.2.nBanUntil) := by
  refine ⟨fun p => mem_sweepList, by simp [SweepBanned, sweepList_snd], ?_⟩
  intro h
  obtain ⟨p, hp, hcond⟩ := List.any_eq_true.1 h
  refine ⟨p, hp, ?_⟩
  have := (Bool.and_eq_true .. ▸ hcond).2
  simpa using this

/-- Witness for C5: a state holding one live entry (expiry `50`, `now = 0`)
answers the overlap query positively, and the unexpired witness exists. -/
theorem sweep_removes_exactly_expired_witness :
    HasBannedAddresses natSup (⟨[(2, ⟨0, 50⟩)], false⟩ : BanManState Nat) 0 2 = true ∧
    ∃ p ∈ ([((2 : Nat), (⟨0, 50⟩ : CBanEntry))] : banmap Nat), (0 : Int) < p.2.nBanUntil :=
  ⟨by decide,
   (sweep_removes_exactly_expired natSup ⟨[(2, ⟨0, 50⟩)], false⟩ 0 2).2.2 (by decide)⟩

/-- Sweeping an already-swept state is a no-op with no events. -/
theorem SweepBanned_idem (st : BanManState α) (now : Int) :
    SweepBanned (SweepBanned st now).1 now =
      ((SweepBanned st now).1, ([] : List (BanEvent α))) := by
  simp [SweepBanned, sweepList_idem]

/-- C6: the flush first sweeps; if the state is then clean it does nothing
further (no store write); if it is dirty it writes exactly the swept snapshot
and the dirty flag afterwards is the negation of the write result, so a failed
write leaves it set for a retry. Moreover `Ban` reports the same success value
to its caller whether or not the store write succeeds. -/
theorem dump_banlist_flush (isS : α → α → Bool) (defaultBanTime : Int) (st : BanManState α)
    (now : Int) (S : α) (offset : Int) (sinceEpoch : Bool) (writeOk : Bool) :
    (DumpBanlist st now writeOk).1.m_banned = (SweepBanned st now).1.m_banned ∧
    ((SweepBanned st now).1.m_is_dirty = false →
      (DumpBanlist st now writeOk).1 = (SweepBanned st now).1 ∧
      ∀ m b, BanEvent.storeWrite m b ∉ (DumpBanlist st now writeOk).2) ∧
    ((SweepBanned st now).1.m_is_dirty = true →
      BanEvent.storeWrite (SweepBanned st now).1.m_banned writeOk ∈
        (DumpBanlist st now writeOk).2 ∧
      (DumpBanlist st now writeOk).1.m_is_dirty = !writeOk) ∧
    (Ban isS defaultBanTime st now S offset sinceEpoch writeOk).1 =
      (Ban isS defaultBanTime st now S offset sinceEpoch true).1 := by
  refine ⟨?_, ?_, ?_, ?_⟩
  · by_cases hd : (SweepBanned st now).1.m_is_dirty <;>
      simp [DumpBanlist, SweepBanned_idem, hd]
  · intro h
    constructor
    · simp [DumpBanlist, h]
    · intro m b
      simp only [DumpBanlist, h, Bool.false_eq_true, if_false]
      simp only [SweepBanned]
      cases (sweepList now st.m_banned).2 <;> simp
  · intro h
    constructor
    · simp [DumpBanlist, SweepBanned_idem, h]
    · cases writeOk <;> simp [DumpBanlist, SweepBanned_idem, h]
  · cases hb : (BanInsert isS defaultBanTime st now S offset sinceEpoch).1 <;>
      simp [Ban, hb]

/-- Witness for C6: a dirty single-entry state flushed against a failing store
emits the write of the swept snapshot and keeps the dirty flag set. -/
theorem dump_banlist_flush_witness :
    (SweepBanned (⟨[(2, ⟨0, 50⟩)], true⟩ : BanManState Nat) 0).1.m_is_dirty = true ∧
    BanEvent.storeWrite (SweepBanned (⟨[((2 : Nat), ⟨0, 50⟩)], true⟩ : BanManState Nat) 0).1.m_banned false ∈
      (DumpBanlist (⟨[((2 : Nat), ⟨0, 50⟩)], true⟩ : BanManState Nat) 0 false).2 ∧
    (DumpBanlist (⟨[((2 : Nat), ⟨0, 50⟩)], true⟩ : BanManState Nat) 0 false).1.m_is_dirty = true :=
  ⟨by decide,
   ((dump_banlist_flush natSup 500 ⟨[(2, ⟨0, 50⟩)], true⟩ 0 0 0 false false).2.2.1 (by decide)).1,
   by
     have h := ((dump_banlist_flush natSup 500 ⟨[(2, ⟨0, 50⟩)], true⟩ 0 0 0 false
       false).2.2.1 (by decide)).2
     simpa using h⟩

/-- C7: `SetBanned` installs the given map and marks the state dirty, and a
subsequent `GetBanned` returns exactly the installed entries that are not yet
expired at read time (`now > nBanUntil` entries are dropped). -/
theorem set_get_roundtrip (st : BanManState α) (M : banmap α) (now : Int) :
    (∀ p, p ∈ (GetBanned (SetBanned st M) now).1 ↔ p ∈ M ∧ ¬ now > p.2.nBanUntil) ∧
    (SetBanned st M).m_is_dirty = true := by
  refine ⟨fun p => ?_, rfl⟩
  simp only [GetBanned, SweepBanned, SetBanned]
  exact mem_sweepList

/-- C8 counterexample: the second of two consecutive clears does mark the
registry dirty again — starting from a clean empty state (as left by a clear
plus successful flush), the locked clear block sets the dirty flag although
nothing observably changed; and at the full-call level the registry is not
even dirty after the first call, because the immediate successful flush
already cleared the flag. -/
theorem clear_idempotent_cex :
    (ClearRegistry (ClearRegistry (⟨[((2 : Nat), ⟨0, 50⟩)], false⟩ : BanManState Nat))).m_is_dirty
      = true ∧
    (ClearRegistry (⟨[], false⟩ : BanManState Nat)).m_is_dirty = true ∧
    (ClearBanned (⟨[((2 : Nat), ⟨0, 50⟩)], false⟩ : BanManState Nat) 0 true).1.m_is_dirty
      = false := by
  decide

/-- C8 amended: calling clear twice in a row leaves the banned map empty after
each call and the second call is idempotent (it reproduces exactly the state
of the first call), but the dirty flag is set unconditionally by each clear,
the second included; at the full-call level the repeated call even repeats the
flush and notification verbatim. -/
theorem clear_idempotent (st : BanManState α) (now : Int) (writeOk : Bool) :
    (ClearRegistry st).m_banned = [] ∧
    (ClearRegistry (ClearRegistry st)).m_banned = [] ∧
    (ClearRegistry st).m_is_dirty = true ∧
    (ClearRegistry (ClearRegistry st)).m_is_dirty = true ∧
    ClearRegistry (ClearRegistry st) = ClearRegistry st ∧
    (ClearBanned st now writeOk).1.m_banned = [] ∧
    ClearBanned (ClearBanned st now writeOk).1 now writeOk = ClearBanned st now writeOk := by
  refine ⟨rfl, rfl, rfl, rfl, rfl, ?_, rfl⟩
  cases writeOk <;> rfl

/-- C9 counterexample: clearing an already-empty registry still notifies the
UI sink, and the notification comes after the store write of the flush, not
before it — the full trace is a store write followed by the notification. -/
theorem notify_on_mutation_cex :
    (⟨[], false⟩ : BanManState Nat).m_banned = [] ∧
    (ClearBanned (⟨[], false⟩ : BanManState Nat) 0 true).2 =
      [BanEvent.storeWrite [] true, BanEvent.notifyUI] := by
  decide

/-- C9 amended: `Ban` and `Unban` notify exactly when the mutation commits
(returns `true`), and then the notification is the first observable event,
before the flush; a rejected `Ban` or missed `Unban` produces no events at
all. `ClearBanned` however always notifies — even when the map was already
empty — and its notification is the last event, after the flush. -/
theorem notify_on_mutation (isS : α → α → Bool) (defaultBanTime : Int) (st : BanManState α)
    (now : Int) (S : α) (offset : Int) (sinceEpoch : Bool) (writeOk : Bool) :
    (ClearBanned st now writeOk).2.getLast? = some BanEvent.notifyUI ∧
    ((Ban isS defaultBanTime st now S offset sinceEpoch writeOk).1 = true →
      (Ban isS defaultBanTime st now S offset sinceEpoch writeOk).2.2.head? =
        some BanEvent.notifyUI) ∧
    ((Ban isS defaultBanTime st now S offset sinceEpoch writeOk).1 = false →
      (Ban isS defaultBanTime st now S offset sinceEpoch writeOk).2.2 = []) ∧
    ((Unban st now S writeOk).1 = true →
      (Unban st now S writeOk).2.2.head? = some BanEvent.notifyUI) ∧
    ((Unban st now S writeOk).1 = false → (Unban st now S writeOk).2.2 = []) := by
  refine ⟨?_, ?_, ?_, ?_, ?_⟩
  · simp [ClearBanned]
  · intro h
    rcases hb : (BanInsert isS defaultBanTime st now S offset sinceEpoch).1 <;>
      simp [Ban, hb] at h ⊢
  · intro h
    rcases hb : (BanInsert isS defaultBanTime st now S offset sinceEpoch).1 <;>
      simp [Ban, hb] at h ⊢
  · intro h
    rcases hc : containsKey st.m_banned S <;> simp [Unban, hc] at h ⊢
  · intro h
    rcases hc : containsKey st.m_banned S <;> simp [Unban, hc] at h ⊢

/-- Witness for C9: a committed ban on an empty registry notifies first and
flushes afterwards. -/
theorem notify_on_mutation_witness :
    (Ban natSup 500 (⟨[], false⟩ : BanManState Nat) 0 7 100 false true).1 = true ∧
    (Ban natSup 500 (⟨[], false⟩ : BanManState Nat) 0 7 100 false true).2.2.head? =
      some BanEvent.notifyUI :=
  ⟨by decide, (notify_on_mutation natSup 500 ⟨[], false⟩ 0 7 100 false true).2.1 (by decide)⟩

/-- C10: an entry whose expiry equals the current instant is already invisible
to the overlap query (its per-entry test is `false` for every queried subnet,
since banning requires `now < nBanUntil` strictly), yet the sweep does not
remove it (removal requires `now > nBanUntil` strictly), so `GetBanned` still
returns it. -/
theorem boundary_expiry_entry (isS : α → α → Bool) (st : BanManState α) (now : Int)
    (b : α) (e : CBanEntry) (S : α)
    (hnow : e.nBanUntil = now) (hmem : (b, e) ∈ st.m_banned) :
    bannedHit isS now S (b, e) = false ∧
    (b, e) ∈ (SweepBanned st now).1.m_banned ∧
    (b, e) ∈ (GetBanned st now).1 := by
  have h2 : (b, e) ∈ (SweepBanned st now).1.m_banned := by
    simp only [SweepBanned]
    exact mem_sweepList.2 ⟨hmem, by simp [hnow]⟩
  exact ⟨by simp [bannedHit, hnow], h2, by simpa [GetBanned] using h2⟩

/-- Witness for C10: with `now = 5` an entry expiring exactly at `5` is not
reported banned for any queried subnet, survives the sweep, and is still
returned by `GetBanned`. -/
theorem boundary_expiry_entry_witness :
    ((⟨0, 5⟩ : CBanEntry).nBanUntil = 5 ∧
      ((2 : Nat), (⟨0, 5⟩ : CBanEntry)) ∈ ([((2 : Nat), ⟨0, 5⟩)] : banmap Nat)) ∧
    (bannedHit natSup 5 9 ((2 : Nat), ⟨0, 5⟩) = false ∧
      ((2 : Nat), (⟨0, 5⟩ : CBanEntry)) ∈
        (SweepBanned (⟨[(2, ⟨0, 5⟩)], false⟩ : BanManState Nat) 5).1.m_banned ∧
      ((2 : Nat), (⟨0, 5⟩ : CBanEntry)) ∈
        (GetBanned (⟨[(2, ⟨0, 5⟩)], false⟩ : BanManState Nat) 5).1) :=
  ⟨by decide,
   boundary_expiry_entry natSup ⟨[(2, ⟨0, 5⟩)], false⟩ 5 2 ⟨0, 5⟩ 9 (by decide) (by decide)⟩
